import Mathlib

/-!
Shallow embedding of `src/scripts/reverse_hash.rs` (an FNV-1 32-bit hash
brute-forcer): the hash engine, digit rendering, search-space bounds and the
nested search loop, together with theorems settling the specification claims.

Machine integers are modelled as `Nat` with explicit reductions modulo
`2 ^ 32` (Rust `u32`) and `2 ^ 64` (Rust `u64`); wrapping arithmetic
(`wrapping_mul`, and release-mode overflow semantics of `pow`, `-` and `*`
on `u64`) is modelled by taking the result modulo the word size.
Strings are modelled as lists of Unicode scalar values (`List Nat`), and
hashing goes through an explicit UTF-8 byte encoding, as Rust's
`str::as_bytes` does.
-/

/-- Modulus of unsigned 32-bit arithmetic. -/
def U32 : Nat := 2 ^ 32

/-- Modulus of unsigned 64-bit arithmetic. -/
def U64 : Nat := 2 ^ 64

/-- The constant `FNV_PRIME: u32 = 16777619` of `reverse_hash.rs`. -/
def FNV_PRIME : Nat := 16777619

/-- The constant `FNV_OFFSET: u32 = 2166136261` of `reverse_hash.rs`. -/
def FNV_OFFSET : Nat := 2166136261

/-- One iteration of the FNV-1 loop body shared by `fnv1_32` and
`fnv1_continue`: `hash = hash.wrapping_mul(FNV_PRIME); hash ^= byte as u32`. -/
def fnv1_step (hash byte : Nat) : Nat := (hash * FNV_PRIME % U32) ^^^ byte

/-- Embedding of `fn fnv1_32(data: &[u8]) -> u32`: start from the offset
basis and run the FNV-1 step over the bytes in order. -/
def fnv1_32 (data : List Nat) : Nat := data.foldl fnv1_step FNV_OFFSET

/-- Embedding of `fn fnv1_continue(mut hash: u32, data: &[u8]) -> u32`:
the same per-byte loop, started from a caller-supplied state. -/
def fnv1_continue (hash : Nat) (data : List Nat) : Nat := data.foldl fnv1_step hash

/-- Embedding of Rust `char::to_ascii_lowercase` on Unicode scalar values:
ASCII capitals `A`–`Z` are shifted to lowercase; every other code point,
non-ASCII ones included, is returned unchanged. -/
def to_ascii_lowercase (c : Nat) : Nat := if 65 ≤ c ∧ c ≤ 90 then c + 32 else c

/-- Unicode simple lowercase mapping restricted to the ASCII and Latin-1
ranges (identity elsewhere): this is exact for every code point below 0x100
(`À`–`Þ` map to `à`–`þ`; `×` and `ß` are unchanged) and models both Rust
`str::to_lowercase`, applied per scalar value, and the specification's
`lowercase(·)` operation, for all strings drawn from those ranges. -/
def charLower (c : Nat) : Nat :=
  if 65 ≤ c ∧ c ≤ 90 then c + 32
  else if (192 ≤ c ∧ c ≤ 214) ∨ (216 ≤ c ∧ c ≤ 222) then c + 32
  else c

/-- Rust `str::to_lowercase`, modelled per scalar value via `charLower`. -/
def strLower (s : List Nat) : List Nat := s.map charLower

/-- UTF-8 encoding of one Unicode scalar value: the byte sequence Rust's
`String::as_bytes` yields for a single `char`. -/
def utf8Char (c : Nat) : List Nat :=
  if c < 128 then [c]
  else if c < 2048 then [192 + c / 64, 128 + c % 64]
  else if c < 65536 then [224 + c / 4096, 128 + c / 64 % 64, 128 + c % 64]
  else [240 + c / 262144, 128 + c / 4096 % 64, 128 + c / 64 % 64, 128 + c % 64]

/-- UTF-8 encoding of a string given as Unicode scalar values. -/
def utf8 (s : List Nat) : List Nat := s.flatMap utf8Char

/-- Embedding of `struct SearchConfig`: `prefix_str` renders the Rust field
`prefix` (a Lean keyword) as Unicode scalar values, `chars` likewise holds
scalar values, `min_num` and `max_num` are the `u64` bounds, and `digits`
is the `usize` digit width `W`. -/
structure SearchConfig where
  prefix_str : List Nat
  chars : List Nat
  min_num : Nat
  max_num : Nat
  continue_after_match : Bool
  digits : Nat

/-- Rust `10u64.pow(w)` under release overflow semantics: repeated wrapping
multiplication, i.e. the mathematical power reduced modulo `2 ^ 64`. Debug
builds panic on the first overflowing step instead. The `usize` to `u32`
cast on the exponent is omitted; it is the identity for every width below
`2 ^ 32`, and a larger width aborts earlier when `num_buf` is allocated. -/
def pow10_u64 (w : Nat) : Nat := 10 ^ w % U64

/-- The local `digit_max = 10u64.pow(config.digits as u32)` of `reverse_hash`. -/
def digit_max (cfg : SearchConfig) : Nat := pow10_u64 cfg.digits

/-- The local `actual_max = config.max_num.min(digit_max)` of `reverse_hash`. -/
def actual_max (cfg : SearchConfig) : Nat := min cfg.max_num (digit_max cfg)

/-- The local `total_per_char = actual_max - config.min_num` of `reverse_hash`:
`u64` subtraction under release overflow semantics, i.e. the two's-complement
wrap `(a + 2 ^ 64 - b) % 2 ^ 64` (debug builds panic when `b > a`). -/
def total_per_char (cfg : SearchConfig) : Nat :=
  (actual_max cfg + U64 - cfg.min_num) % U64

/-- The local `total_checks = config.chars.len() as u64 * total_per_char` of
`reverse_hash` (wrapping `u64` multiplication); `main` computes and prints
the same product as `total_combinations`. -/
def total_checks (cfg : SearchConfig) : Nat :=
  cfg.chars.length * total_per_char cfg % U64

/-- The digit-buffer fill loop of `reverse_hash`: for `i` in `(0..digits).rev()`
position `i` receives `b'0' + (n % 10)` while `n` is divided by ten, so the
buffer is filled right to left. `renderNum w n` is the slice `num_buf[..w]`
the loop leaves behind for `num = n` (every position below `w` is
overwritten on every iteration). -/
def renderNum : Nat → Nat → List Nat
  | 0, _ => []
  | w + 1, n => renderNum w (n / 10) ++ [48 + n % 10]

/-- Decimal digit extraction, structurally recursive on a fuel bound that
dominates the rendered number (auxiliary to `decDigits`). -/
def decDigitsAux : Nat → Nat → List Nat
  | 0, _ => []
  | fuel + 1, n => if n < 10 then [48 + n] else decDigitsAux fuel (n / 10) ++ [48 + n % 10]

/-- ASCII decimal representation of `n`, most significant digit first, no
leading zeros (`"0"` for zero): Rust's `Display` rendering of a `u64`. -/
def decDigits (n : Nat) : List Nat := decDigitsAux (n + 1) n

/-- Rust `format!("{:0width$}", n)`: the full decimal representation of `n`
left-padded with `'0'` to at least `width` digits — never truncated. -/
def formatPadded (width n : Nat) : List Nat :=
  List.replicate (width - (decDigits n).length) 48 ++ decDigits n

/-- The partial hash `reverse_hash` computes per alphabet character:
`fnv1_32` over the UTF-8 bytes of `config.prefix.to_lowercase()` followed by
the UTF-8 bytes of `ch.to_ascii_lowercase()`. -/
def partialHash (cfg : SearchConfig) (ch : Nat) : Nat :=
  fnv1_32 (utf8 (strLower cfg.prefix_str) ++ utf8Char (to_ascii_lowercase ch))

/-- The `partial_hashes` vector of `reverse_hash`: one `(ch, hash)` pair per
alphabet character, in alphabet order, computed before the loops run. -/
def partial_hashes (cfg : SearchConfig) : List (Nat × Nat) :=
  cfg.chars.map fun ch => (ch, partialHash cfg ch)

/-- The candidate string `reverse_hash` reconstructs on a match:
`format!("{}{}{:0width$}", prefix.to_lowercase(), ch.to_ascii_lowercase(),
num, width = digits)`, as Unicode scalar values. -/
def resultString (cfg : SearchConfig) (ch num : Nat) : List Nat :=
  strLower cfg.prefix_str ++ [to_ascii_lowercase ch] ++ formatPadded cfg.digits num

/-- The numbers `for num in config.min_num..actual_max` visits, in order
(empty when `min_num ≥ actual_max`). -/
def numRange (cfg : SearchConfig) : List Nat :=
  List.range' cfg.min_num (actual_max cfg - cfg.min_num)

/-- The inner numeric loop of `reverse_hash` for one character `ch` with
partial hash `ph`: renders each number, continues the hash, and on a match
appends the reconstructed candidate; the boolean records whether
`return results` fired (a match with `continue_after_match` false). -/
def innerLoop (cfg : SearchConfig) (target ph ch : Nat) :
    List Nat → List (List Nat) → List (List Nat) × Bool
  | [], results => (results, false)
  | num :: rest, results =>
    if fnv1_continue ph (renderNum cfg.digits num) = target then
      if cfg.continue_after_match then
        innerLoop cfg target ph ch rest (results ++ [resultString cfg ch num])
      else (results ++ [resultString cfg ch num], true)
    else innerLoop cfg target ph ch rest results

/-- The outer character loop of `reverse_hash` over the precomputed
`partial_hashes`, threading the result vector and honouring the early
return out of both loops. -/
def outerLoop (cfg : SearchConfig) (target : Nat) :
    List (Nat × Nat) → List (List Nat) → List (List Nat)
  | [], results => results
  | (ch, ph) :: rest, results =>
    match innerLoop cfg target ph ch (numRange cfg) results with
    | (results1, true) => results1
    | (results1, false) => outerLoop cfg target rest results1

/-- Embedding of `fn reverse_hash(target_hash: u32, config: &SearchConfig)
-> Vec<String>`. Progress reporting (the `checked` counter and the prints)
does not touch the result vector and is omitted. -/
def reverse_hash (target : Nat) (cfg : SearchConfig) : List (List Nat) :=
  outerLoop cfg target (partial_hashes cfg) []

/-- Specification-side digit rendering, from the spec's words: the low `w`
decimal digits of `n`, most significant digit first, left-padded with `'0'`
to exactly `w` bytes. -/
def specPad (w n : Nat) : List Nat :=
  (List.range w).map fun i => 48 + n % 10 ^ w / 10 ^ (w - 1 - i) % 10

/-- Specification-side partial hash, from the spec's words: `fnv1_32` of the
bytes of `lowercase(prefix)` followed by the bytes of `lowercase(c)`, with
the one `lowercase` operation (the Unicode mapping) applied to both. -/
def spec_partial_hash (cfg : SearchConfig) (ch : Nat) : Nat :=
  fnv1_32 (utf8 (strLower cfg.prefix_str) ++ utf8Char (charLower ch))

/-- Specification-side match list, from the spec's words: taking the
characters in alphabet order and, within each character, the numbers in
ascending order, the reconstructed candidates whose hash equals the target —
the character-major, numeric-ascending discovery order. -/
def discoveryMatches (target : Nat) (cfg : SearchConfig) : List (List Nat) :=
  cfg.chars.flatMap fun ch =>
    (numRange cfg).filterMap fun num =>
      if fnv1_continue (partialHash cfg ch) (renderNum cfg.digits num) = target
      then some (resultString cfg ch num) else none

/-- The match list the inner loop contributes for one character `ch` whose
precomputed partial hash is `ph`: the reconstructed candidates, in ascending
numeric order, whose continued hash equals the target. -/
def charMatches (cfg : SearchConfig) (target ph ch : Nat) : List (List Nat) :=
  (numRange cfg).filterMap fun num =>
    if fnv1_continue ph (renderNum cfg.digits num) = target
    then some (resultString cfg ch num) else none

/-- Concrete configuration refuting C7: the alphabet holds the non-ASCII
character `É` (U+00C9), whose Unicode lowercase `é` (U+00E9) differs from
its `to_ascii_lowercase` image (itself). -/
def cfgC7 : SearchConfig :=
  { prefix_str := [], chars := [201], min_num := 0, max_num := 0,
    continue_after_match := false, digits := 1 }

/-- Concrete all-ASCII configuration exercising C7's amended statement
(prefix "Pl", alphabet "Sc"). -/
def cfgW7 : SearchConfig :=
  { prefix_str := [80, 108], chars := [83, 99], min_num := 0, max_num := 0,
    continue_after_match := false, digits := 1 }

/-- Concrete configuration exercising C8 (alphabet "a", width 1, range
0..10, stop on first match). -/
def cfgW8 : SearchConfig :=
  { prefix_str := [], chars := [97], min_num := 0, max_num := 10,
    continue_after_match := false, digits := 1 }

/-- Concrete configuration exercising C9: the duplicated alphabet "aa" with
digit width 0 makes two distinct candidates hash alike, a degenerate
collision, and `--continue` collects both. -/
def cfgW9 : SearchConfig :=
  { prefix_str := [], chars := [97, 97], min_num := 0, max_num := 1,
    continue_after_match := true, digits := 0 }

/-- Concrete configuration exercising C10 (prefix "p", alphabet "a",
width 1, range 0..10). -/
def cfgW10 : SearchConfig :=
  { prefix_str := [112], chars := [97], min_num := 0, max_num := 10,
    continue_after_match := false, digits := 1 }

/-- Concrete configuration refuting C4: digit width 20 makes the wrapping
`10u64.pow` clamp `actual_max` below `min_num = max_num = 10 ^ 19`. -/
def cfgC4 : SearchConfig :=
  { prefix_str := [], chars := [97], min_num := 10 ^ 19, max_num := 10 ^ 19,
    continue_after_match := false, digits := 20 }

/-- Concrete configuration exercising C4's amended statement. -/
def cfgW4 : SearchConfig :=
  { prefix_str := [112], chars := [97, 98], min_num := 0, max_num := 500,
    continue_after_match := false, digits := 2 }

/-- Concrete configuration refuting C5: `min_num = 2` exceeds the effective
maximum `actual_max = 1`, so the `u64` subtraction in `total_per_char` wraps. -/
def cfgC5 : SearchConfig :=
  { prefix_str := [], chars := [97], min_num := 2, max_num := 1,
    continue_after_match := false, digits := 1 }

/-- Concrete configuration exercising C5's amended statement (empty range
with `min_num > actual_max`). -/
def cfgW5 : SearchConfig :=
  { prefix_str := [], chars := [97], min_num := 7, max_num := 5,
    continue_after_match := false, digits := 1 }

/-- Concrete failing input for C6: `--digits 20`, where `10u64.pow(20)`
overflows (the range is kept trivial so the run completes immediately). -/
def cfgC6 : SearchConfig :=
  { prefix_str := [], chars := [97], min_num := 0, max_num := 0,
    continue_after_match := false, digits := 20 }

theorem fnv1_step_lt {h b : Nat} (hb : b < 256) : fnv1_step h b < U32 := by
  have h1 : h * FNV_PRIME % U32 < 2 ^ 32 := Nat.mod_lt _ (by decide)
  have h2 : b < 2 ^ 32 := lt_of_lt_of_le hb (by norm_num)
  exact Nat.xor_lt_two_pow h1 h2

theorem fnv1_fold_lt :
    ∀ data : List Nat, (∀ b ∈ data, b < 256) →
      ∀ h0 : Nat, h0 < U32 → data.foldl fnv1_step h0 < U32 := by
  intro data
  induction data with
  | nil => intro _ h0 hh0; simpa using hh0
  | cons b rest ih =>
    intro hbytes h0 _
    have hb : b < 256 := hbytes b (List.mem_cons_self _ _)
    have hrest : ∀ x ∈ rest, x < 256 := fun x hx => hbytes x (List.mem_cons_of_mem _ hx)
    simpa using ih hrest (fnv1_step h0 b) (fnv1_step_lt hb)

theorem fnv1_32_append (A B : List Nat) :
    fnv1_32 (A ++ B) = fnv1_continue (fnv1_32 A) B := by
  simp [fnv1_32, fnv1_continue, List.foldl_append]

/-- C1: continuing the FNV-1 hash from the state produced by hashing `A` and
then feeding `B` yields exactly the value of hashing the concatenation
`A ++ B` from scratch. -/
theorem claim1_hash_continue_concat (A B : List Nat) :
    fnv1_continue (fnv1_32 A) B = fnv1_32 (A ++ B) :=
  (fnv1_32_append A B).symm

/-- C2: `fnv1_32` starts from the offset basis 2166136261 and, for each byte
in order, multiplies the state by the prime 16777619 modulo `2 ^ 32` and
XORs in the byte; on byte input the state always stays below `2 ^ 32`, so
the wrapping multiplication never errors and the final state is a 32-bit
value. -/
theorem claim2_fnv1_32_algorithm :
    fnv1_32 [] = 2166136261 ∧
    (∀ data b, fnv1_32 (data ++ [b]) = (fnv1_32 data * 16777619 % 2 ^ 32) ^^^ b) ∧
    (∀ data : List Nat, (∀ b ∈ data, b < 256) → fnv1_32 data < 2 ^ 32) := by
  refine ⟨rfl, fun data b => ?_, fun data h => ?_⟩
  · simp [fnv1_32, fnv1_step, FNV_PRIME, U32, List.foldl_append]
  · exact fnv1_fold_lt data h FNV_OFFSET (by norm_num [U32, FNV_OFFSET])

/-- Witness for C2 at the concrete byte string `"pl"`. -/
theorem claim2_witness :
    fnv1_32 [112, 108] = 1635194321 ∧ fnv1_32 [112, 108] < 2 ^ 32 :=
  ⟨by decide, claim2_fnv1_32_algorithm.2.2 [112, 108] (by decide)⟩

theorem specPad_succ (w n : Nat) :
    specPad (w + 1) n = specPad w (n / 10) ++ [48 + n % 10] := by
  unfold specPad
  rw [List.range_succ, List.map_append]
  congr 1
  · apply List.map_congr_left
    intro i hi
    have hiw : i < w := List.mem_range.mp hi
    have e1 : w + 1 - 1 - i = w - i := by omega
    have e2 : 10 * 10 ^ w = 10 ^ (w + 1) := by rw [pow_succ]; ring
    have e3 : 10 * 10 ^ (w - 1 - i) = 10 ^ (w - i) := by
      have e : w - i = (w - 1 - i) + 1 := by omega
      rw [e, pow_succ]; ring
    have key : n / 10 % 10 ^ w / 10 ^ (w - 1 - i) = n % 10 ^ (w + 1) / 10 ^ (w - i) := by
      rw [← Nat.mod_mul_right_div_self n 10 (10 ^ w), Nat.div_div_eq_div_mul, e2, e3]
    rw [e1, key]
  · have e1 : w + 1 - 1 - w = 0 := by omega
    have e2 : n % 10 ^ (w + 1) % 10 = n % 10 :=
      Nat.mod_mod_of_dvd n (dvd_pow_self 10 (Nat.succ_ne_zero w))
    simp [e1, e2]

theorem renderNum_eq_specPad (w n : Nat) : renderNum w n = specPad w n := by
  induction w generalizing n with
  | zero => simp [renderNum, specPad]
  | succ w ih => simp only [renderNum, specPad_succ, ih]

theorem renderNum_length (w n : Nat) : (renderNum w n).length = w := by
  induction w generalizing n with
  | zero => rfl
  | succ w ih => simp [renderNum, ih]

theorem renderNum_bytes (w n : Nat) : ∀ b ∈ renderNum w n, 48 ≤ b ∧ b < 58 := by
  induction w generalizing n with
  | zero => intro b hb; simp [renderNum] at hb
  | succ w ih =>
    intro b hb
    simp only [renderNum, List.mem_append, List.mem_singleton] at hb
    rcases hb with hb | hb
    · exact ih (n / 10) b hb
    · have : n % 10 < 10 := Nat.mod_lt n (by norm_num)
      omega

/-- C3: for positive digit width `w`, the digit buffer receives exactly `w`
ASCII decimal digit bytes, most significant first, equal to the low `w`
decimal digits of `n` left-padded with `'0'` (`specPad`); high-order digits
of an oversized `n` are silently truncated, never an error. -/
theorem claim3_digit_rendering (w n : Nat) (_hw : 0 < w) :
    (renderNum w n).length = w ∧
    renderNum w n = specPad w n ∧
    (∀ b ∈ renderNum w n, 48 ≤ b ∧ b < 58) :=
  ⟨renderNum_length w n, renderNum_eq_specPad w n, renderNum_bytes w n⟩

/-- Witness for C3: width 4 renders 7 as `"0007"` and 12345 as the truncated
`"2345"`. -/
theorem claim3_witness :
    0 < 4 ∧ renderNum 4 7 = specPad 4 7 ∧
    renderNum 4 7 = [48, 48, 48, 55] ∧ renderNum 4 12345 = [50, 51, 52, 53] :=
  ⟨by decide, (claim3_digit_rendering 4 7 (by decide)).2.1, by decide, by decide⟩

theorem pow10_u64_le (w : Nat) : pow10_u64 w ≤ 10 ^ w := Nat.mod_le _ _

theorem pow10_u64_lt (w : Nat) : pow10_u64 w < U64 :=
  Nat.mod_lt _ (by norm_num [U64])

theorem pow10_u64_exact {w : Nat} (hw : w ≤ 19) : pow10_u64 w = 10 ^ w := by
  have h1 : (10 : Nat) ^ w ≤ 10 ^ 19 := Nat.pow_le_pow_right (by norm_num) hw
  have h2 : (10 : Nat) ^ 19 < U64 := by norm_num [U64]
  exact Nat.mod_eq_of_lt (by omega)

theorem actual_max_le_pow (cfg : SearchConfig) : actual_max cfg ≤ 10 ^ cfg.digits :=
  le_trans (min_le_right _ _) (pow10_u64_le _)

theorem actual_max_lt_u64 (cfg : SearchConfig) : actual_max cfg < U64 :=
  lt_of_le_of_lt (min_le_right _ _) (pow10_u64_lt _)

theorem total_per_char_exact (cfg : SearchConfig) (h : cfg.min_num ≤ actual_max cfg) :
    total_per_char cfg = actual_max cfg - cfg.min_num := by
  have hlt : actual_max cfg < U64 := actual_max_lt_u64 cfg
  unfold total_per_char
  have e : actual_max cfg + U64 - cfg.min_num = U64 + (actual_max cfg - cfg.min_num) := by
    omega
  rw [e, Nat.add_mod_left]
  exact Nat.mod_eq_of_lt (by omega)

theorem total_per_char_wrapped (cfg : SearchConfig) (h : actual_max cfg < cfg.min_num)
    (hu : cfg.min_num < U64) :
    total_per_char cfg = U64 - (cfg.min_num - actual_max cfg) := by
  unfold total_per_char
  have e : actual_max cfg + U64 - cfg.min_num = U64 - (cfg.min_num - actual_max cfg) := by
    omega
  rw [e]
  exact Nat.mod_eq_of_lt (by omega)

/-- Counterexample to C4 as stated: with digit width 20 and
`min_num = max_num = 10 ^ 19`, the effective maximum the search uses is the
wrapped `10 ^ 20 % 2 ^ 64 = 7766279631452241920`, not
`min(configuredMax, 10 ^ 20) = 10 ^ 19`, and the computed total candidate
count is a wrapped nonzero value although `alphabetSize * (effectiveMax −
min)` under the claim's reading is zero. -/
theorem claim4_counterexample :
    actual_max cfgC4 ≠ min cfgC4.max_num (10 ^ cfgC4.digits) ∧
    cfgC4.chars.length * (min cfgC4.max_num (10 ^ cfgC4.digits) - cfgC4.min_num) = 0 ∧
    total_checks cfgC4 ≠ 0 := by
  refine ⟨by decide, by decide, by decide⟩

/-- C4 amended: for every configuration the effective maximum never exceeds
`10 ^ W`, and for digit widths up to 19 (where `10 ^ W` fits in a `u64`) it
equals `min(configuredMax, 10 ^ W)` exactly; the computed total candidate
count equals `alphabetSize * (effectiveMax − min)` exactly whenever the
range is nonempty (`min ≤ effectiveMax`) and that product fits in a `u64` —
outside those bounds the `u64` arithmetic wraps modulo `2 ^ 64`. -/
theorem claim4_bounds_amended (cfg : SearchConfig) :
    actual_max cfg ≤ 10 ^ cfg.digits ∧
    (cfg.digits ≤ 19 → actual_max cfg = min cfg.max_num (10 ^ cfg.digits)) ∧
    (cfg.min_num ≤ actual_max cfg →
      cfg.chars.length * (actual_max cfg - cfg.min_num) < U64 →
      total_checks cfg = cfg.chars.length * (actual_max cfg - cfg.min_num)) := by
  refine ⟨actual_max_le_pow cfg, fun hd => ?_, fun hmin hfit => ?_⟩
  · unfold actual_max digit_max
    rw [pow10_u64_exact hd]
  · unfold total_checks
    rw [total_per_char_exact cfg hmin]
    exact Nat.mod_eq_of_lt hfit

/-- Witness for C4's amended statement at a concrete configuration
(prefix "p", alphabet "ab", width 2, `--max 500` clamped to 100, reported
total `2 * 100 = 200`). -/
theorem claim4_witness :
    (actual_max cfgW4 ≤ 10 ^ cfgW4.digits ∧
      (cfgW4.digits ≤ 19 → actual_max cfgW4 = min cfgW4.max_num (10 ^ cfgW4.digits)) ∧
      (cfgW4.min_num ≤ actual_max cfgW4 →
        cfgW4.chars.length * (actual_max cfgW4 - cfgW4.min_num) < U64 →
        total_checks cfgW4 = cfgW4.chars.length * (actual_max cfgW4 - cfgW4.min_num))) ∧
    actual_max cfgW4 = 100 ∧ total_checks cfgW4 = 200 :=
  ⟨claim4_bounds_amended cfgW4, by decide, by decide⟩

theorem numRange_nil (cfg : SearchConfig) (h : actual_max cfg ≤ cfg.min_num) :
    numRange cfg = [] := by
  unfold numRange
  have e : actual_max cfg - cfg.min_num = 0 := by omega
  rw [e]
  rfl

theorem outerLoop_empty_range (cfg : SearchConfig) (target : Nat)
    (h : actual_max cfg ≤ cfg.min_num) :
    ∀ (phs : List (Nat × Nat)) (results : List (List Nat)),
      outerLoop cfg target phs results = results := by
  intro phs
  induction phs with
  | nil => intro r; rfl
  | cons p rest ih =>
    intro r
    obtain ⟨ch, ph⟩ := p
    simp [outerLoop, numRange_nil cfg h, innerLoop, ih]

/-- Counterexample to C5 as stated: with `min_num = 2` above the effective
maximum 1, the run does return an empty result, but the computed total
candidate count is the wrapped value `2 ^ 64 - 1`, not zero. -/
theorem claim5_counterexample :
    actual_max cfgC5 < cfgC5.min_num ∧
    reverse_hash 0 cfgC5 = [] ∧
    total_checks cfgC5 = 2 ^ 64 - 1 ∧
    total_checks cfgC5 ≠ 0 := by
  refine ⟨by decide, by decide, by decide, by decide⟩

/-- C5 amended: an empty effective range (`effectiveMax ≤ min`) yields an
immediate run that visits no number and returns an empty result without
crashing; the computed total candidate count is zero exactly when
`effectiveMax = min`, while for `min > effectiveMax` the `u64` subtraction
wraps to `2 ^ 64` minus the deficit (a debug build would panic there). -/
theorem claim5_empty_range_amended (target : Nat) (cfg : SearchConfig) :
    (actual_max cfg ≤ cfg.min_num →
      reverse_hash target cfg = [] ∧ numRange cfg = []) ∧
    (actual_max cfg = cfg.min_num → total_checks cfg = 0) ∧
    (actual_max cfg < cfg.min_num → cfg.min_num < U64 →
      total_per_char cfg = U64 - (cfg.min_num - actual_max cfg)) := by
  refine ⟨fun h => ⟨outerLoop_empty_range cfg target h _ _, numRange_nil cfg h⟩, ?_, ?_⟩
  · intro he
    unfold total_checks total_per_char
    rw [he]
    simp [Nat.add_sub_cancel]
  · intro hlt hu
    exact total_per_char_wrapped cfg hlt hu

/-- Witness for C5's amended statement at a concrete empty-range
configuration (`min_num = 7`, `max_num = 5`): the run is empty and the
wrapped per-character count is `2 ^ 64 - 2`. -/
theorem claim5_witness :
    ((actual_max cfgW5 ≤ cfgW5.min_num →
        reverse_hash 0 cfgW5 = [] ∧ numRange cfgW5 = []) ∧
      (actual_max cfgW5 = cfgW5.min_num → total_checks cfgW5 = 0) ∧
      (actual_max cfgW5 < cfgW5.min_num → cfgW5.min_num < U64 →
        total_per_char cfgW5 = U64 - (cfgW5.min_num - actual_max cfgW5))) ∧
    reverse_hash 0 cfgW5 = [] ∧ total_per_char cfgW5 = 2 ^ 64 - 2 :=
  ⟨claim5_empty_range_amended 0 cfgW5, by decide, by decide⟩

/-- C6: evaluation of the code at the failing input `--digits 20`. The
claim requires such a configuration to be rejected up front, never silently
wrapped; instead `10u64.pow(20)` wraps to `7766279631452241920` under
release overflow semantics (a debug build panics inside the computation),
no configuration check exists, and the search runs normally with the
wrapped bound — here, with a trivial range, completing with an empty
result. In general the computed `digit_max` differs from `10 ^ w` for every
`w ≥ 20`. -/
theorem claim6_overflow_wraps :
    digit_max cfgC6 = 7766279631452241920 ∧
    digit_max cfgC6 ≠ 10 ^ 20 ∧
    reverse_hash 0 cfgC6 = [] ∧
    (∀ w, 20 ≤ w → pow10_u64 w ≠ 10 ^ w ∧ pow10_u64 w < U64) := by
  refine ⟨by decide, by decide, by decide, fun w hw => ?_⟩
  have h1 : (10 : Nat) ^ 20 ≤ 10 ^ w := Nat.pow_le_pow_right (by norm_num) hw
  have h2 : pow10_u64 w < U64 := pow10_u64_lt w
  have h3 : U64 < 10 ^ 20 := by norm_num [U64]
  exact ⟨by omega, h2⟩

theorem ascii_lower_eq_charLower {ch : Nat} (hch : ch < 128) :
    to_ascii_lowercase ch = charLower ch := by
  have hno : ¬ ((192 ≤ ch ∧ ch ≤ 214) ∨ (216 ≤ ch ∧ ch ≤ 222)) := by omega
  simp [to_ascii_lowercase, charLower, hno]

/-- Counterexample to C7 as stated: for the non-ASCII alphabet character
`É` (U+00C9) the code hashes the character unchanged
(`to_ascii_lowercase` is the identity there, UTF-8 bytes `[195, 137]`),
while the spec's `lowercase(c)` is `é` (U+00E9, bytes `[195, 169]`), and
the two partial hashes differ. -/
theorem claim7_counterexample :
    to_ascii_lowercase 201 = 201 ∧ charLower 201 = 233 ∧
    partial_hashes cfgC7 = [(201, 3463954909)] ∧
    spec_partial_hash cfgC7 201 = 3463954941 ∧
    partialHash cfgC7 201 ≠ spec_partial_hash cfgC7 201 := by
  refine ⟨by decide, by decide, by decide, by decide, by decide⟩

/-- C7 amended: the stored partial hash for `c` is `fnv1_32` of the bytes of
`lowercase(prefix)` followed by the bytes of `to_ascii_lowercase(c)` — the
character is lowered ASCII-only, so non-ASCII characters are hashed
unchanged; whenever every alphabet character is ASCII this coincides with
the claimed `lowercase(prefix) + lowercase(c)` hash, one entry per
character, computed before the loops. -/
theorem claim7_partial_hash_amended (cfg : SearchConfig)
    (hascii : ∀ ch ∈ cfg.chars, ch < 128) :
    partial_hashes cfg = cfg.chars.map (fun ch => (ch, spec_partial_hash cfg ch)) ∧
    (∀ ch, ch < 128 → to_ascii_lowercase ch = charLower ch) := by
  refine ⟨?_, fun ch hch => ascii_lower_eq_charLower hch⟩
  unfold partial_hashes
  apply List.map_congr_left
  intro ch hch
  unfold partialHash spec_partial_hash
  rw [ascii_lower_eq_charLower (hascii ch hch)]

/-- Witness for C7's amended statement at the all-ASCII configuration
`cfgW7` (prefix "Pl", alphabet "Sc"). -/
theorem claim7_witness :
    partial_hashes cfgW7 = cfgW7.chars.map (fun ch => (ch, spec_partial_hash cfgW7 ch)) ∧
    (∀ ch, ch < 128 → to_ascii_lowercase ch = charLower ch) :=
  claim7_partial_hash_amended cfgW7 (by decide)

theorem innerLoop_cont (cfg : SearchConfig) (hc : cfg.continue_after_match = true)
    (target ph ch : Nat) :
    ∀ (nums : List Nat) (results : List (List Nat)),
      innerLoop cfg target ph ch nums results =
        (results ++ (nums.filterMap fun num =>
          if fnv1_continue ph (renderNum cfg.digits num) = target
          then some (resultString cfg ch num) else none), false) := by
  intro nums
  induction nums with
  | nil => intro r; simp [innerLoop]
  | cons num rest ih =>
    intro r
    by_cases hm : fnv1_continue ph (renderNum cfg.digits num) = target
    · simp [innerLoop, hm, hc, ih, List.filterMap_cons]
    · simp [innerLoop, hm, ih, List.filterMap_cons]

theorem innerLoop_stop (cfg : SearchConfig) (hc : cfg.continue_after_match = false)
    (target ph ch : Nat) :
    ∀ (nums : List Nat) (results : List (List Nat)),
      innerLoop cfg target ph ch nums results =
        (results ++ (nums.filterMap fun num =>
          if fnv1_continue ph (renderNum cfg.digits num) = target
          then some (resultString cfg ch num) else none).take 1,
         !(nums.filterMap fun num =>
          if fnv1_continue ph (renderNum cfg.digits num) = target
          then some (resultString cfg ch num) else none).isEmpty) := by
  intro nums
  induction nums with
  | nil => intro r; simp [innerLoop]
  | cons num rest ih =>
    intro r
    by_cases hm : fnv1_continue ph (renderNum cfg.digits num) = target
    · simp [innerLoop, hm, hc, List.filterMap_cons]
    · simp [innerLoop, hm, ih, List.filterMap_cons]

theorem outerLoop_cont (cfg : SearchConfig) (hc : cfg.continue_after_match = true)
    (target : Nat) :
    ∀ (phs : List (Nat × Nat)) (results : List (List Nat)),
      outerLoop cfg target phs results =
        results ++ phs.flatMap fun p => charMatches cfg target p.2 p.1 := by
  intro phs
  induction phs with
  | nil => intro r; simp [outerLoop]
  | cons p rest ih =>
    intro r
    obtain ⟨ch, ph⟩ := p
    rw [outerLoop, innerLoop_cont cfg hc target ph ch (numRange cfg) r]
    simp [ih, charMatches, List.flatMap_cons]

theorem innerLoop_stop_cm (cfg : SearchConfig) (hc : cfg.continue_after_match = false)
    (target ph ch : Nat) (r : List (List Nat)) :
    innerLoop cfg target ph ch (numRange cfg) r =
      (r ++ (charMatches cfg target ph ch).take 1,
       !(charMatches cfg target ph ch).isEmpty) := by
  unfold charMatches
  exact innerLoop_stop cfg hc target ph ch (numRange cfg) r

theorem outerLoop_stop (cfg : SearchConfig) (hc : cfg.continue_after_match = false)
    (target : Nat) :
    ∀ (phs : List (Nat × Nat)) (results : List (List Nat)),
      outerLoop cfg target phs results =
        results ++ (phs.flatMap fun p => charMatches cfg target p.2 p.1).take 1 := by
  intro phs
  induction phs with
  | nil => intro r; simp [outerLoop]
  | cons p rest ih =>
    intro r
    obtain ⟨ch, ph⟩ := p
    rw [outerLoop, innerLoop_stop_cm cfg hc target ph ch r]
    rcases hcm : charMatches cfg target ph ch with _ | ⟨x, cm⟩
    · simp [ih, List.flatMap_cons, hcm]
    · simp [List.flatMap_cons, hcm]

theorem discoveryMatches_eq (target : Nat) (cfg : SearchConfig) :
    discoveryMatches target cfg =
      (partial_hashes cfg).flatMap fun p => charMatches cfg target p.2 p.1 := by
  unfold discoveryMatches partial_hashes charMatches
  rw [List.flatMap_map]

theorem reverse_hash_cont (target : Nat) (cfg : SearchConfig)
    (hc : cfg.continue_after_match = true) :
    reverse_hash target cfg = discoveryMatches target cfg := by
  rw [reverse_hash, outerLoop_cont cfg hc target, discoveryMatches_eq]
  rfl

theorem reverse_hash_stop (target : Nat) (cfg : SearchConfig)
    (hc : cfg.continue_after_match = false) :
    reverse_hash target cfg = (discoveryMatches target cfg).take 1 := by
  rw [reverse_hash, outerLoop_stop cfg hc target, discoveryMatches_eq]
  rfl

/-- C8: with continue-after-match false the search stops at the first
matching candidate: the result is the one-element truncation of the full
discovery-ordered match list, hence never holds more than one record. -/
theorem claim8_early_stop (target : Nat) (cfg : SearchConfig)
    (hc : cfg.continue_after_match = false) :
    reverse_hash target cfg = (discoveryMatches target cfg).take 1 ∧
    (reverse_hash target cfg).length ≤ 1 := by
  refine ⟨reverse_hash_stop target cfg hc, ?_⟩
  rw [reverse_hash_stop target cfg hc]
  exact List.length_take_le 1 (discoveryMatches target cfg)

/-- Witness for C8 at `cfgW8` with target `fnv1_32 "a5"`: the search returns
exactly the single first match `"a5"`. -/
theorem claim8_witness :
    reverse_hash 1886858607 cfgW8 = (discoveryMatches 1886858607 cfgW8).take 1 ∧
    (reverse_hash 1886858607 cfgW8).length ≤ 1 ∧
    reverse_hash 1886858607 cfgW8 = [[97, 53]] :=
  ⟨(claim8_early_stop 1886858607 cfgW8 (by decide)).1,
   (claim8_early_stop 1886858607 cfgW8 (by decide)).2, by decide⟩

/-- C9: with continue-after-match true the returned sequence is exactly the
list of all matching candidates in discovery order — character-major in the
configured alphabet order, numeric-ascending within each character. -/
theorem claim9_discovery_order (target : Nat) (cfg : SearchConfig)
    (hc : cfg.continue_after_match = true) :
    reverse_hash target cfg = discoveryMatches target cfg :=
  reverse_hash_cont target cfg hc

/-- Witness for C9 at `cfgW9`, where a degenerate collision (duplicated
alphabet character with digit width 0) produces two matches, both collected
in discovery order. -/
theorem claim9_witness :
    reverse_hash 84696446 cfgW9 = discoveryMatches 84696446 cfgW9 ∧
    discoveryMatches 84696446 cfgW9 = [[97, 48], [97, 48]] :=
  ⟨claim9_discovery_order 84696446 cfgW9 (by decide), by decide⟩

theorem renderNum_zero : ∀ w : Nat, renderNum w 0 = List.replicate w 48 := by
  intro w
  induction w with
  | zero => rfl
  | succ w ih => simp [renderNum, ih, List.replicate_succ']

theorem renderNum_pad (fuel : Nat) :
    ∀ n w : Nat, n < fuel → 1 ≤ w → n < 10 ^ w →
      renderNum w n =
        List.replicate (w - (decDigitsAux fuel n).length) 48 ++ decDigitsAux fuel n := by
  induction fuel with
  | zero => intro n w hn; exact absurd hn (Nat.not_lt_zero n)
  | succ fuel ih =>
    intro n w hn hw hpow
    by_cases h10 : n < 10
    · have e : decDigitsAux (fuel + 1) n = [48 + n] := by simp [decDigitsAux, h10]
      rw [e]
      obtain ⟨v, rfl⟩ : ∃ v, w = v + 1 := ⟨w - 1, by omega⟩
      have hn10 : n / 10 = 0 := Nat.div_eq_of_lt h10
      have hnm : n % 10 = n := Nat.mod_eq_of_lt h10
      simp [renderNum, hn10, hnm, renderNum_zero, List.replicate_succ']
    · have e : decDigitsAux (fuel + 1) n = decDigitsAux fuel (n / 10) ++ [48 + n % 10] := by
        simp [decDigitsAux, h10]
      rw [e]
      obtain ⟨v, rfl⟩ : ∃ v, w = v + 1 := ⟨w - 1, by omega⟩
      have hv1 : 1 ≤ v := by
        rcases Nat.eq_zero_or_pos v with hv0 | hv0
        · subst hv0
          rw [pow_one] at hpow
          omega
        · exact hv0
      have hfuel : n / 10 < fuel := by
        have : n / 10 < n := Nat.div_lt_self (by omega) (by norm_num)
        omega
      have hpow' : n / 10 < 10 ^ v := by
        rw [Nat.div_lt_iff_lt_mul (by norm_num : (0:Nat) < 10), ← pow_succ]
        exact hpow
      rw [renderNum, ih (n / 10) v hfuel hv1 hpow']
      rw [List.append_assoc, List.length_append]
      have ec : v + 1 - ((decDigitsAux fuel (n / 10)).length + [48 + n % 10].length) =
          v - (decDigitsAux fuel (n / 10)).length := by simp
      rw [ec]

theorem formatPadded_eq_renderNum (w n : Nat) (hw : 1 ≤ w) (hn : n < 10 ^ w) :
    formatPadded w n = renderNum w n := by
  unfold formatPadded decDigits
  exact (renderNum_pad (n + 1) n w (Nat.lt_succ_self n) hw hn).symm

theorem utf8_append (a b : List Nat) : utf8 (a ++ b) = utf8 a ++ utf8 b := by
  simp [utf8, List.flatMap_append]

theorem utf8_ascii : ∀ s : List Nat, (∀ c ∈ s, c < 128) → utf8 s = s := by
  intro s
  induction s with
  | nil => intro _; rfl
  | cons c cs ih =>
    intro h
    have hc : c < 128 := h c (List.mem_cons_self _ _)
    have e : utf8Char c = [c] := by simp [utf8Char, hc]
    have ecs : utf8 cs = cs := ih fun x hx => h x (List.mem_cons_of_mem _ hx)
    unfold utf8 at ecs ⊢
    rw [List.flatMap_cons, e, ecs]
    rfl

theorem mem_numRange {cfg : SearchConfig} {num : Nat} (h : num ∈ numRange cfg) :
    cfg.min_num ≤ num ∧ num < actual_max cfg := by
  unfold numRange at h
  have := List.mem_range'_1.mp h
  omega

theorem mem_reverse_hash {target : Nat} {cfg : SearchConfig} {s : List Nat}
    (hs : s ∈ reverse_hash target cfg) :
    ∃ ch num, ch ∈ cfg.chars ∧ num ∈ numRange cfg ∧
      fnv1_continue (partialHash cfg ch) (renderNum cfg.digits num) = target ∧
      s = resultString cfg ch num := by
  have hd : s ∈ discoveryMatches target cfg := by
    cases hc : cfg.continue_after_match with
    | true => rw [reverse_hash_cont target cfg hc] at hs; exact hs
    | false =>
      rw [reverse_hash_stop target cfg hc] at hs
      exact List.mem_of_mem_take hs
  unfold discoveryMatches at hd
  obtain ⟨ch, hch, hmem⟩ := List.mem_flatMap.mp hd
  obtain ⟨num, hnum, heq⟩ := List.mem_filterMap.mp hmem
  by_cases hm : fnv1_continue (partialHash cfg ch) (renderNum cfg.digits num) = target
  · rw [if_pos hm] at heq
    exact ⟨ch, num, hch, hnum, hm, (Option.some_injective _ heq).symm⟩
  · rw [if_neg hm] at heq
    exact absurd heq (Option.noConfusion)

/-- C10: soundness of reported matches — with positive digit width, every
string the search returns hashes from scratch to the target, because the
reconstructed string's bytes coincide with the lowercased-prefix-plus-
character bytes followed by the digit buffer whose continued hash matched
(every enumerated number lies below `10 ^ W`, so the zero-padded formatting
reproduces the buffer exactly). -/
theorem claim10_soundness (target : Nat) (cfg : SearchConfig)
    (hw : 1 ≤ cfg.digits) :
    ∀ s ∈ reverse_hash target cfg,
      fnv1_32 (utf8 s) = target ∧
      ∃ ch num, ch ∈ cfg.chars ∧ s = resultString cfg ch num ∧
        utf8 s = utf8 (strLower cfg.prefix_str) ++
          utf8Char (to_ascii_lowercase ch) ++ renderNum cfg.digits num := by
  intro s hs
  obtain ⟨ch, num, hch, hnum, hm, hres⟩ := mem_reverse_hash hs
  have hlt : num < 10 ^ cfg.digits := by
    have h1 := (mem_numRange hnum).2
    have h2 := actual_max_le_pow cfg
    omega
  have hfmt : formatPadded cfg.digits num = renderNum cfg.digits num :=
    formatPadded_eq_renderNum cfg.digits num hw hlt
  have hdig : utf8 (renderNum cfg.digits num) = renderNum cfg.digits num :=
    utf8_ascii _ fun b hb => by
      have := renderNum_bytes cfg.digits num b hb
      omega
  have hbytes : utf8 s = utf8 (strLower cfg.prefix_str) ++
      utf8Char (to_ascii_lowercase ch) ++ renderNum cfg.digits num := by
    rw [hres]
    unfold resultString
    rw [hfmt, utf8_append, utf8_append]
    have echar : utf8 [to_ascii_lowercase ch] = utf8Char (to_ascii_lowercase ch) := by
      simp [utf8]
    rw [echar, hdig]
  refine ⟨?_, ch, num, hch, hres, hbytes⟩
  rw [hbytes,
    fnv1_32_append (utf8 (strLower cfg.prefix_str) ++ utf8Char (to_ascii_lowercase ch))
      (renderNum cfg.digits num)]
  exact hm

/-- Witness for C10 at `cfgW10` with target `fnv1_32 "pa5"`: the single
returned string `"pa5"` hashes back to the target. -/
theorem claim10_witness :
    (1 ≤ cfgW10.digits) ∧
    reverse_hash 1249339745 cfgW10 = [[112, 97, 53]] ∧
    (∀ s ∈ reverse_hash 1249339745 cfgW10, fnv1_32 (utf8 s) = 1249339745) :=
  ⟨by decide, by decide,
   fun s hs => (claim10_soundness 1249339745 cfgW10 (by decide) s hs).1⟩
